import Mathlib

/-!
Verification of the backtesting core: domain types, portfolio ledger,
simulated execution, the event-driven simulation loop, recorder, metrics,
and the two reference strategies. Monetary values are Python `Decimal`
quantities, embedded as exact rationals (`ℚ`); timestamps are abstract
instants, embedded as naturals.
-/

/-- Side of an order or fill (src/core/types.py, `Side`). -/
inductive Side where
  | BUY : Side
  | SELL : Side
deriving DecidableEq, Repr

/-- One time interval of market data (src/core/types.py, `Bar`). -/
structure Bar where
  timestamp : ℕ
  «open» : ℚ
  high : ℚ
  low : ℚ
  close : ℚ
  volume : ℚ
deriving DecidableEq, Repr, Inhabited

/-- Instruction to buy or sell (src/core/types.py, `Order`). -/
structure Order where
  symbol : String
  side : Side
  quantity : ℚ
  timestamp : ℕ
deriving DecidableEq, Repr

/-- Executed order (src/core/types.py, `Fill`). -/
structure Fill where
  symbol : String
  side : Side
  quantity : ℚ
  price : ℚ
  fee : ℚ
  timestamp : ℕ
deriving DecidableEq, Repr

/-- Current position (src/core/types.py, `Position`). -/
structure Position where
  quantity : ℚ
  average_price : ℚ := 0
deriving DecidableEq, Repr, Inhabited

/-- Snapshot of portfolio financial state (src/core/types.py, `PortfolioState`). -/
structure PortfolioState where
  cash : ℚ
  position : Position
  equity : ℚ
  realized_pnl : ℚ
  unrealized_pnl : ℚ
  timestamp : Option ℕ := none
deriving DecidableEq, Repr, Inhabited

/-- Portfolio ledger state (src/portfolio/portfolio.py, `Portfolio`: the
fields `_cash`, `_position`, `_realized_pnl`). -/
structure Portfolio where
  cash : ℚ
  position : Position
  realized_pnl : ℚ
deriving DecidableEq, Repr

namespace Portfolio

/-- Constructor (src/portfolio/portfolio.py, `Portfolio.__init__`). -/
def init (initial_cash : ℚ) : Portfolio :=
  { cash := initial_cash
    position := { quantity := 0, average_price := 0 }
    realized_pnl := 0 }

/-- Update cash, position, and realized PnL from a fill
(src/portfolio/portfolio.py, `Portfolio.apply_fill`). -/
def apply_fill (p : Portfolio) (fill : Fill) : Portfolio :=
  let qty := fill.quantity
  let price := fill.price
  let fee := fill.fee
  match fill.side with
  | Side.BUY =>
    let old_qty := p.position.quantity
    let old_avg := p.position.average_price
    let new_qty := old_qty + qty
    let new_avg := if new_qty ≠ 0 then (old_qty * old_avg + qty * price) / new_qty else 0
    { p with
      cash := p.cash - (qty * price + fee)
      position := { quantity := new_qty, average_price := new_avg } }
  | Side.SELL =>
    let new_qty := p.position.quantity - qty
    let new_avg := if new_qty ≠ 0 then p.position.average_price else 0
    { cash := p.cash + (qty * price - fee)
      realized_pnl := p.realized_pnl + ((price - p.position.average_price) * qty - fee)
      position := { quantity := new_qty, average_price := new_avg } }

/-- Mark-to-market equity at given price (src/portfolio/portfolio.py, `equity_at`). -/
def equity_at (p : Portfolio) (price : ℚ) : ℚ :=
  p.cash + p.position.quantity * price

/-- Unrealized PnL on the open position at given price
(src/portfolio/portfolio.py, `unrealized_pnl_at`). -/
def unrealized_pnl_at (p : Portfolio) (price : ℚ) : ℚ :=
  if p.position.quantity = 0 then 0
  else (price - p.position.average_price) * p.position.quantity

/-- Snapshot of portfolio state at given price (src/portfolio/portfolio.py, `state_at`). -/
def state_at (p : Portfolio) (price : ℚ) (timestamp : Option ℕ) : PortfolioState :=
  { cash := p.cash
    position := { quantity := p.position.quantity, average_price := p.position.average_price }
    equity := p.equity_at price
    realized_pnl := p.realized_pnl
    unrealized_pnl := p.unrealized_pnl_at price
    timestamp := timestamp }

end Portfolio

/-- Simulated execution configuration (src/execution/simulated.py,
`SimulatedExecution.__init__`: the fields `_fee_pct`, `_slippage_pct`). -/
structure SimulatedExecution where
  fee_pct : ℚ := 0
  slippage_pct : ℚ := 0
deriving DecidableEq, Repr

namespace SimulatedExecution

/-- Fill at bar open, then apply slippage and fee
(src/execution/simulated.py, `SimulatedExecution.execute`). -/
def execute (ex : SimulatedExecution) (order : Order) (fill_bar : Bar) : Fill :=
  let base_price := fill_bar.«open»
  let fill_price :=
    match order.side with
    | Side.BUY => base_price * (1 + ex.slippage_pct)
    | Side.SELL => base_price * (1 - ex.slippage_pct)
  let notional := order.quantity * fill_price
  let fee := notional * ex.fee_pct
  { symbol := order.symbol
    side := order.side
    quantity := order.quantity
    price := fill_price
    fee := fee
    timestamp := fill_bar.timestamp }

end SimulatedExecution

/-- Recorder of portfolio states and trades (src/backtest/recorder.py,
`Recorder`: the fields `_states`, `_trades`). -/
structure Recorder where
  states : List PortfolioState
  trades : List Fill
deriving DecidableEq, Repr

namespace Recorder

/-- Fresh recorder (src/backtest/recorder.py, `Recorder.__init__`). -/
def init : Recorder := { states := [], trades := [] }

/-- Append a state snapshot (src/backtest/recorder.py, `record_state`). -/
def record_state (r : Recorder) (state : PortfolioState) : Recorder :=
  { r with states := r.states ++ [state] }

/-- Append a fill (src/backtest/recorder.py, `record_fill`). -/
def record_fill (r : Recorder) (fill : Fill) : Recorder :=
  { r with trades := r.trades ++ [fill] }

end Recorder

/-!
The simulation loop (src/backtest/engine.py, `run`). The Python loop
mutates the portfolio and the recorder and keeps a local `pending_order`
variable; the embedding threads all of this as an explicit state. The
strategy is abstract (src/strategies/base.py): a state type `σ` together
with a transition `nextF` returning the updated strategy state and the
target position. The execution component is abstract likewise
(src/execution/base.py): a function from order and fill bar to fill.
-/

/-- Loop state of the engine: strategy internal state, portfolio, the
single pending order, and the recorder. -/
structure EngineState (σ : Type) where
  strat : σ
  portfolio : Portfolio
  pending : Option Order
  recorder : Recorder

/-- Body of the per-bar loop of src/backtest/engine.py, `run`: fill the
pending order at this bar's open, record state at this bar's close, ask
the strategy for a target, create an order for the delta if non-zero. -/
def engineStep {σ : Type} (nextF : σ → Bar → PortfolioState → σ × ℚ)
    (execF : Order → Bar → Fill) (symbol : String)
    (st : EngineState σ) (bar : Bar) : EngineState σ :=
  let afterFill : Portfolio × Recorder :=
    match st.pending with
    | some o =>
      let fill := execF o bar
      (st.portfolio.apply_fill fill, st.recorder.record_fill fill)
    | none => (st.portfolio, st.recorder)
  let p1 := afterFill.1
  let state := p1.state_at bar.close (some bar.timestamp)
  let r2 := afterFill.2.record_state state
  let res := nextF st.strat bar state
  let delta := res.2 - p1.position.quantity
  let newPending : Option Order :=
    if delta ≠ 0 then
      some { symbol := symbol
             side := if delta > 0 then Side.BUY else Side.SELL
             quantity := |delta|
             timestamp := bar.timestamp }
    else none
  { strat := res.1, portfolio := p1, pending := newPending, recorder := r2 }

/-- Run backtest over bars (src/backtest/engine.py, `run`): fold the
per-bar body over the bar list, starting with no pending order; a pending
order left after the last bar is dropped, exactly as in the source. -/
def engineRun {σ : Type} (nextF : σ → Bar → PortfolioState → σ × ℚ) (s0 : σ)
    (portfolio : Portfolio) (execF : Order → Bar → Fill) (recorder : Recorder)
    (bars : List Bar) (symbol : String) : EngineState σ :=
  bars.foldl (engineStep nextF execF symbol)
    { strat := s0, portfolio := portfolio, pending := none, recorder := recorder }

/-!
Metrics (src/reporting/metrics.py). The source converts each `Decimal`
equity to `float`; the embedding stays in exact rationals, with the one
genuinely real-valued operation (the square root in the Sharpe ratio)
carried out in `ℝ`.
-/

/-- Equity series of a recorder (src/reporting/metrics.py, `_equity_series`). -/
def equitySeries (recorder : Recorder) : List ℚ :=
  recorder.states.map (fun s => s.equity)

/-- Total return (src/reporting/metrics.py, `total_return`). -/
def total_return (recorder : Recorder) : ℚ :=
  match recorder.states with
  | [] => 0
  | [_] => 0
  | s0 :: s1 :: rest =>
    let initial := s0.equity
    let final := ((s1 :: rest).getLast (List.cons_ne_nil s1 rest)).equity
    if initial ≤ 0 then 0 else (final - initial) / initial

/-- Loop body of `max_drawdown` (src/reporting/metrics.py): the
accumulator is (running peak, max drawdown fraction, max drawdown
absolute). -/
def ddStep (acc : ℚ × ℚ × ℚ) (e : ℚ) : ℚ × ℚ × ℚ :=
  let peak := if e > acc.1 then e else acc.1
  let dd_abs := peak - e
  let dd_pct := if peak > 0 then dd_abs / peak else 0
  if dd_pct > acc.2.1 then (peak, dd_pct, dd_abs) else (peak, acc.2.1, acc.2.2)

/-- Max drawdown as (fraction of peak, absolute) (src/reporting/metrics.py,
`max_drawdown`). -/
def max_drawdown (recorder : Recorder) : ℚ × ℚ :=
  let eq := equitySeries recorder
  if eq.length < 2 then (0, 0)
  else
    let r := eq.foldl ddStep (eq.headD 0, 0, 0)
    (r.2.1, r.2.2)

/-- Per-bar simple returns net of the per-period risk-free rate, skipping
bars whose previous equity is not positive (the `returns` list built in
src/reporting/metrics.py, `sharpe_ratio`). -/
def sharpeReturns (eq : List ℚ) (periods_per_year risk_free_rate : ℚ) : List ℚ :=
  (eq.zip eq.tail).filterMap (fun pr =>
    if pr.1 > 0 then some ((pr.2 - pr.1) / pr.1 - risk_free_rate / periods_per_year)
    else none)

/-- Arithmetic mean of a list (the `mean_r` computation in
src/reporting/metrics.py, `sharpe_ratio`). -/
def listMean (l : List ℚ) : ℚ :=
  l.sum / l.length

/-- Population variance of a list (the `variance` computation in
src/reporting/metrics.py, `sharpe_ratio`). -/
def popVariance (l : List ℚ) : ℚ :=
  (l.map (fun r => (r - listMean l) ^ 2)).sum / l.length

/-- Annualized Sharpe ratio (src/reporting/metrics.py, `sharpe_ratio`);
`none` embeds Python's `None`. -/
noncomputable def sharpe_ratio (recorder : Recorder)
    (periods_per_year risk_free_rate : ℚ) : Option ℝ :=
  let eq := equitySeries recorder
  if eq.length < 3 then none
  else
    let returns := sharpeReturns eq periods_per_year risk_free_rate
    if returns = [] then none
    else
      let mean_r := listMean returns
      let std : ℝ := Real.sqrt (popVariance returns)
      if std ≤ 0 then none
      else some ((mean_r : ℝ) / std * Real.sqrt (periods_per_year : ℚ))

/-!
Strategies (src/strategies/momentum.py and src/strategies/dual_ma.py).
Python's `deque(maxlen=n)` is embedded as a list that keeps the most
recent `n` appended elements. Constructors raise `ValueError`; the
embedding returns `Except String`.
-/

/-- Append to a bounded window, keeping the last `maxlen` elements
(Python `deque(maxlen=...)` with `append`). -/
def pushWindow (maxlen : ℤ) (l : List ℚ) (x : ℚ) : List ℚ :=
  let l2 := l ++ [x]
  l2.drop (l2.length - maxlen.toNat)

/-- Momentum strategy state (src/strategies/momentum.py,
`MomentumStrategy`: `_lookback`, `_size`, `_closes`). -/
structure MomentumStrategy where
  lookback : ℤ
  size : ℚ
  closes : List ℚ
deriving DecidableEq, Repr

namespace MomentumStrategy

/-- Constructor (src/strategies/momentum.py, `MomentumStrategy.__init__`);
raises when `lookback < 1`. -/
def strategyInit (lookback : ℤ) (size : ℚ) : Except String MomentumStrategy :=
  if lookback < 1 then Except.error "lookback must be >= 1"
  else Except.ok { lookback := lookback, size := size, closes := [] }

/-- Per-bar decision (src/strategies/momentum.py, `MomentumStrategy.next`):
append the close to the window; flat until the window is full; long `size`
when the close is strictly above the window's simple moving average. -/
def next (s : MomentumStrategy) (bar : Bar) (_state : PortfolioState) :
    MomentumStrategy × ℚ :=
  let closes := pushWindow s.lookback s.closes bar.close
  let s2 := { s with closes := closes }
  if (closes.length : ℤ) < s.lookback then (s2, 0)
  else
    let ma := closes.sum / (closes.length : ℚ)
    if bar.close > ma then (s2, s.size) else (s2, 0)

end MomentumStrategy

/-- Dual moving average strategy state (src/strategies/dual_ma.py,
`DualMAStrategy`: `_fast`, `_slow`, `_size`, `_closes`). -/
structure DualMAStrategy where
  fast : ℤ
  slow : ℤ
  size : ℚ
  closes : List ℚ
deriving DecidableEq, Repr

namespace DualMAStrategy

/-- Constructor (src/strategies/dual_ma.py, `DualMAStrategy.__init__`);
raises when a lookback is below 1 or `fast_lookback >= slow_lookback`. -/
def strategyInit (fast_lookback slow_lookback : ℤ) (size : ℚ) :
    Except String DualMAStrategy :=
  if fast_lookback < 1 ∨ slow_lookback < 1 then Except.error "lookbacks must be >= 1"
  else if fast_lookback ≥ slow_lookback then
    Except.error "fast_lookback must be < slow_lookback"
  else Except.ok { fast := fast_lookback, slow := slow_lookback, size := size, closes := [] }

/-- Per-bar decision (src/strategies/dual_ma.py, `DualMAStrategy.next`). -/
def next (s : DualMAStrategy) (bar : Bar) (_state : PortfolioState) :
    DualMAStrategy × ℚ :=
  let closes := pushWindow s.slow s.closes bar.close
  let s2 := { s with closes := closes }
  if (closes.length : ℤ) < s.slow then (s2, 0)
  else
    let fastTail := closes.drop (closes.length - s.fast.toNat)
    let fast_ma := fastTail.sum / (s.fast : ℚ)
    let slow_ma := closes.sum / (s.slow : ℚ)
    if fast_ma > slow_ma then (s2, s.size) else (s2, 0)

end DualMAStrategy

/-!
Specification-side expressions and concrete instances used by the claim
theorems below.
-/

/-- Total quantity of a fill list (specification expression: denominator of
the quantity-weighted mean). -/
def sumQ (fills : List Fill) : ℚ :=
  (fills.map (fun f => f.quantity)).sum

/-- Quantity-weighted price total of a fill list (specification expression:
numerator of the quantity-weighted mean). -/
def sumQP (fills : List Fill) : ℚ :=
  (fills.map (fun f => f.quantity * f.price)).sum

lemma sumQ_append (xs : List Fill) (f : Fill) :
    sumQ (xs ++ [f]) = sumQ xs + f.quantity := by
  simp [sumQ]

lemma sumQP_append (xs : List Fill) (f : Fill) :
    sumQP (xs ++ [f]) = sumQP xs + f.quantity * f.price := by
  simp [sumQP]

lemma sumQ_nonneg (fills : List Fill) (h : ∀ f ∈ fills, 0 < f.quantity) :
    0 ≤ sumQ fills := by
  apply List.sum_nonneg
  intro x hx
  obtain ⟨f, hf, rfl⟩ := List.mem_map.mp hx
  exact le_of_lt (h f hf)

lemma sumQ_pos (fills : List Fill) (hne : fills ≠ [])
    (h : ∀ f ∈ fills, 0 < f.quantity) : 0 < sumQ fills := by
  cases fills with
  | nil => exact absurd rfl hne
  | cons f rest =>
    have h1 : 0 < f.quantity := h f (List.mem_cons_self f rest)
    have h2 : 0 ≤ sumQ rest := sumQ_nonneg rest (fun g hg => h g (List.mem_cons_of_mem f hg))
    have : sumQ (f :: rest) = f.quantity + sumQ rest := by simp [sumQ]
    rw [this]
    linarith

/-- Running invariant of a buys-only fill sequence: the position's quantity
is the total bought quantity and quantity times average price is the
quantity-weighted price total. -/
lemma apply_fill_buys_inv (cash0 : ℚ) (fills : List Fill)
    (h : ∀ f ∈ fills, f.side = Side.BUY ∧ 0 < f.quantity) :
    (fills.foldl Portfolio.apply_fill (Portfolio.init cash0)).position.quantity
        = sumQ fills ∧
    (fills.foldl Portfolio.apply_fill (Portfolio.init cash0)).position.quantity *
        (fills.foldl Portfolio.apply_fill (Portfolio.init cash0)).position.average_price
        = sumQP fills := by
  induction fills using List.reverseRecOn with
  | nil => simp [Portfolio.init, sumQ, sumQP]
  | append_singleton xs f ih =>
    have hxs : ∀ g ∈ xs, g.side = Side.BUY ∧ 0 < g.quantity :=
      fun g hg => h g (List.mem_append_left [f] hg)
    have hf := h f (List.mem_append_right xs (List.mem_singleton.mpr rfl))
    obtain ⟨hq, hqp⟩ := ih hxs
    have hqnn : 0 ≤ sumQ xs := sumQ_nonneg xs (fun g hg => (hxs g hg).2)
    have hnz : (xs.foldl Portfolio.apply_fill (Portfolio.init cash0)).position.quantity
        + f.quantity ≠ 0 := by
      rw [hq]
      exact ne_of_gt (by linarith [hf.2])
    rw [List.foldl_append]
    constructor
    · simp only [List.foldl_cons, List.foldl_nil, Portfolio.apply_fill, hf.1]
      rw [hq, sumQ_append]
    · simp only [List.foldl_cons, List.foldl_nil, Portfolio.apply_fill, hf.1]
      rw [if_pos hnz, mul_comm, div_mul_cancel₀ _ hnz, hqp, sumQP_append]

/-- C3: a buys-only fill sequence applied to a fresh ledger produces an
average price equal to the quantity-weighted mean of the buy prices, and
each individual buy updates the average cost by the quantity-weighted
blend (resetting to zero when the resulting quantity is zero). -/
theorem C3_buys_weighted_average :
    (∀ (cash0 : ℚ) (fills : List Fill),
      (∀ f ∈ fills, f.side = Side.BUY ∧ 0 < f.quantity) →
      (fills.foldl Portfolio.apply_fill (Portfolio.init cash0)).position.average_price
        = sumQP fills / sumQ fills) ∧
    (∀ (p : Portfolio) (f : Fill), f.side = Side.BUY →
      (p.apply_fill f).position.average_price =
        if p.position.quantity + f.quantity ≠ 0 then
          (p.position.quantity * p.position.average_price + f.quantity * f.price)
            / (p.position.quantity + f.quantity)
        else 0) := by
  constructor
  · intro cash0 fills h
    obtain ⟨hq, hqp⟩ := apply_fill_buys_inv cash0 fills h
    cases fills with
    | nil => simp [Portfolio.init, sumQ, sumQP]
    | cons f rest =>
      have hpos : 0 < sumQ (f :: rest) :=
        sumQ_pos (f :: rest) (List.cons_ne_nil f rest) (fun g hg => (h g hg).2)
      rw [eq_div_iff (ne_of_gt hpos), mul_comm, ← hq, hqp]
  · intro p f hs
    simp only [Portfolio.apply_fill, hs]

/-- C3 witness: two concrete buys, 1 unit at 100 then 3 units at 104, give
average price (1*100 + 3*104)/4 = 103. -/
theorem C3_buys_weighted_average_witness :
    ([⟨"BTC", Side.BUY, 1, 100, 0, 0⟩, ⟨"BTC", Side.BUY, 3, 104, 0, 1⟩].foldl
        Portfolio.apply_fill (Portfolio.init 1000)).position.average_price = 103 := by
  rw [C3_buys_weighted_average.1 1000 _ (by decide)]
  simp [sumQP, sumQ]
  norm_num

/-- C4: a sell fill adds quantity*price - fee to cash and
(price - average_price)*quantity - fee to realized PnL; the remaining
position's average price is unchanged when the new quantity is non-zero
and resets to zero when the sell closes the position, after which a buy
establishes a fresh average price equal to that buy's price. -/
theorem C4_sell_fill (p : Portfolio) (f : Fill) (hs : f.side = Side.SELL) :
    (p.apply_fill f).cash = p.cash + (f.quantity * f.price - f.fee) ∧
    (p.apply_fill f).realized_pnl
        = p.realized_pnl + ((f.price - p.position.average_price) * f.quantity - f.fee) ∧
    (p.position.quantity - f.quantity ≠ 0 →
      (p.apply_fill f).position.average_price = p.position.average_price) ∧
    (p.position.quantity - f.quantity = 0 →
      (p.apply_fill f).position.average_price = 0 ∧
      ∀ g : Fill, g.side = Side.BUY → g.quantity ≠ 0 →
        ((p.apply_fill f).apply_fill g).position.average_price = g.price) := by
  refine ⟨?_, ?_, ?_, ?_⟩
  · simp [Portfolio.apply_fill, hs]
  · simp [Portfolio.apply_fill, hs]
  · intro hnz
    simp [Portfolio.apply_fill, hs, if_pos hnz]
  · intro hz
    constructor
    · simp [Portfolio.apply_fill, hs, hz]
    · intro g hg hgq
      simp only [Portfolio.apply_fill, hs, hz, hg]
      simp only [if_neg (by simp : ¬(0 : ℚ) ≠ 0)]
      rw [if_pos (by simpa using hgq)]
      rw [mul_zero, zero_add, zero_add, mul_comm, mul_div_assoc, div_self hgq, mul_one]

/-- C4 witness: selling 1 of a 2-unit position held at average 100, at
price 110 with fee 1, yields cash 1000 + 109, realized PnL 9, and an
unchanged average price of 100. -/
theorem C4_sell_fill_witness :
    ((Portfolio.mk 1000 ⟨2, 100⟩ 0).apply_fill ⟨"BTC", Side.SELL, 1, 110, 1, 5⟩).cash
        = 1109 ∧
    ((Portfolio.mk 1000 ⟨2, 100⟩ 0).apply_fill ⟨"BTC", Side.SELL, 1, 110, 1, 5⟩).realized_pnl
        = 9 ∧
    ((Portfolio.mk 1000 ⟨2, 100⟩ 0).apply_fill
        ⟨"BTC", Side.SELL, 1, 110, 1, 5⟩).position.average_price = 100 := by
  obtain ⟨h1, h2, h3, _⟩ :=
    C4_sell_fill (Portfolio.mk 1000 ⟨2, 100⟩ 0) ⟨"BTC", Side.SELL, 1, 110, 1, 5⟩ rfl
  exact ⟨by rw [h1]; norm_num, by rw [h2]; norm_num, by rw [h3 (by norm_num)]⟩

/-- C5 counterexample: on the ledger holding 1 unit at average price 50,
buying 1 at 100 (fee 0) then selling 1 at 100 (fee 0) changes realized
PnL (from 0 to 25), so round-trip neutrality fails for this ledger state. -/
theorem C5_round_trip_counterexample :
    (((Portfolio.mk 0 ⟨1, 50⟩ 0).apply_fill (Fill.mk "BTC" Side.BUY 1 100 0 0)).apply_fill
        (Fill.mk "BTC" Side.SELL 1 100 0 1)).realized_pnl
      ≠ (Portfolio.mk 0 ⟨1, 50⟩ 0).realized_pnl := by
  norm_num [Portfolio.apply_fill]

/-- C5 (amended): a buy immediately followed by a sell of the same
quantity at the same price with zero fee leaves cash unchanged on every
ledger state, and leaves realized PnL unchanged on every ledger state
whose position is flat before the buy. -/
theorem C5_round_trip (p : Portfolio) (sym : String) (q price : ℚ) (t1 t2 : ℕ) :
    ((p.apply_fill (Fill.mk sym Side.BUY q price 0 t1)).apply_fill
        (Fill.mk sym Side.SELL q price 0 t2)).cash = p.cash ∧
    (p.position.quantity = 0 →
      ((p.apply_fill (Fill.mk sym Side.BUY q price 0 t1)).apply_fill
          (Fill.mk sym Side.SELL q price 0 t2)).realized_pnl = p.realized_pnl) := by
  constructor
  · simp only [Portfolio.apply_fill]
    ring
  · intro hflat
    by_cases hq : q = 0
    · simp [Portfolio.apply_fill, hflat, hq]
    · have hnz : p.position.quantity + q ≠ 0 := by rw [hflat]; simpa using hq
      simp only [Portfolio.apply_fill, if_pos hnz, hflat]
      simp [hq]

/-- C5 witness: from a fresh ledger with cash 1000, buying 2 at 10 then
selling 2 at 10 (zero fee) leaves cash 1000 and realized PnL 0. -/
theorem C5_round_trip_witness :
    (((Portfolio.init 1000).apply_fill (Fill.mk "BTC" Side.BUY 2 10 0 0)).apply_fill
        (Fill.mk "BTC" Side.SELL 2 10 0 1)).cash = 1000 ∧
    (((Portfolio.init 1000).apply_fill (Fill.mk "BTC" Side.BUY 2 10 0 0)).apply_fill
        (Fill.mk "BTC" Side.SELL 2 10 0 1)).realized_pnl = 0 := by
  obtain ⟨h1, h2⟩ := C5_round_trip (Portfolio.init 1000) "BTC" 2 10 0 1
  exact ⟨h1, h2 rfl⟩

/-- C8: total_return is the fractional change of equity from the first to
the last recorded state, and is zero when there are fewer than two states
or the initial equity is not positive. -/
theorem C8_total_return (rec : Recorder) :
    total_return rec =
      if rec.states.length < 2 ∨ (rec.states.headD default).equity ≤ 0 then 0
      else ((rec.states.getLastD default).equity - (rec.states.headD default).equity)
            / (rec.states.headD default).equity := by
  rcases rec with ⟨states, trades⟩
  match states with
  | [] => simp [total_return]
  | [s] => simp [total_return]
  | s0 :: s1 :: rest =>
    have hlast : (s0 :: s1 :: rest).getLastD default
        = (s1 :: rest).getLast (List.cons_ne_nil s1 rest) := by
      simp only [List.getLastD_cons, List.getLast_eq_getLastD]
    by_cases h0 : s0.equity ≤ 0
    · rw [if_pos (Or.inr (by simpa using h0))]
      simp [total_return, h0]
    · rw [if_neg (by push_neg; exact ⟨by simp, by simpa using not_le.mp h0⟩)]
      simp only [total_return]
      rw [if_neg h0, hlast]
      simp

/-- C9: the momentum constructor rejects exactly the lookbacks below 1 and
the dual-MA constructor rejects exactly the parameter sets with a lookback
below 1 or fast not strictly less than slow; valid parameters construct
successfully. The decision functions themselves contain no error path, so
no error of this kind can arise during a run. -/
theorem C9_constructor_validation :
    (∀ (lookback : ℤ) (size : ℚ),
      (∃ e, MomentumStrategy.strategyInit lookback size = Except.error e)
        ↔ lookback < 1) ∧
    (∀ (lookback : ℤ) (size : ℚ), 1 ≤ lookback →
      MomentumStrategy.strategyInit lookback size
        = Except.ok { lookback := lookback, size := size, closes := [] }) ∧
    (∀ (fast slow : ℤ) (size : ℚ),
      (∃ e, DualMAStrategy.strategyInit fast slow size = Except.error e)
        ↔ (fast < 1 ∨ slow < 1 ∨ fast ≥ slow)) ∧
    (∀ (fast slow : ℤ) (size : ℚ), 1 ≤ fast → fast < slow →
      DualMAStrategy.strategyInit fast slow size
        = Except.ok { fast := fast, slow := slow, size := size, closes := [] }) := by
  refine ⟨?_, ?_, ?_, ?_⟩
  · intro lookback size
    unfold MomentumStrategy.strategyInit
    constructor
    · intro ⟨e, he⟩
      by_contra hge
      rw [if_neg hge] at he
      exact Except.noConfusion he
    · intro hlt
      exact ⟨_, by rw [if_pos hlt]⟩
  · intro lookback size hge
    unfold MomentumStrategy.strategyInit
    rw [if_neg (not_lt.mpr hge)]
  · intro fast slow size
    unfold DualMAStrategy.strategyInit
    constructor
    · intro ⟨e, he⟩
      by_cases h1 : fast < 1 ∨ slow < 1
      · rcases h1 with h | h
        · exact Or.inl h
        · exact Or.inr (Or.inl h)
      · rw [if_neg h1] at he
        by_cases h2 : fast ≥ slow
        · exact Or.inr (Or.inr h2)
        · rw [if_neg h2] at he
          exact Except.noConfusion he
    · intro h
      by_cases h1 : fast < 1 ∨ slow < 1
      · exact ⟨_, by rw [if_pos h1]⟩
      · have h2 : fast ≥ slow := by
          rcases h with h | h | h
          · exact absurd (Or.inl h) h1
          · exact absurd (Or.inr h) h1
          · exact h
        exact ⟨_, by rw [if_neg h1, if_pos h2]⟩
  · intro fast slow size hf hlt
    unfold DualMAStrategy.strategyInit
    rw [if_neg (by push_neg; exact ⟨hf, by linarith⟩), if_neg (not_le.mpr hlt)]

/-- C9 witness: lookback 2 constructs a momentum strategy, and fast 2,
slow 5 construct a dual-MA strategy. -/
theorem C9_constructor_validation_witness :
    MomentumStrategy.strategyInit 2 1
        = Except.ok { lookback := 2, size := 1, closes := [] } ∧
    DualMAStrategy.strategyInit 2 5 1
        = Except.ok { fast := 2, slow := 5, size := 1, closes := [] } :=
  ⟨C9_constructor_validation.2.1 2 1 (by decide),
   C9_constructor_validation.2.2.2 2 5 1 (by decide) (by decide)⟩

/-- Targets produced by repeatedly consulting a momentum strategy over a
sequence of (bar, portfolio state) observations, threading the strategy's
internal window (specification device for the per-bar decision stream). -/
def momTargets (s : MomentumStrategy) : List (Bar × PortfolioState) → List ℚ
  | [] => []
  | (b, ps) :: rest =>
    (s.next b ps).2 :: momTargets (s.next b ps).1 rest

/-- With lookback 1 the window after any observation is exactly the last
close, the moving average is that close itself, and the strict comparison
fails, so the decision is 0 and the updated state again has lookback 1. -/
lemma mom_next_lookback_one (size : ℚ) (closes : List ℚ) (b : Bar)
    (ps : PortfolioState) :
    MomentumStrategy.next ⟨1, size, closes⟩ b ps
      = (⟨1, size, [b.close]⟩, 0) := by
  have hwin : pushWindow 1 closes b.close = [b.close] := by
    unfold pushWindow
    simp only [List.length_append, List.length_cons, List.length_nil, Int.toNat_one]
    exact List.drop_left closes [b.close]
  unfold MomentumStrategy.next
  rw [hwin]
  simp only [List.length_cons, List.length_nil, List.sum_cons, List.sum_nil]
  norm_num

/-- C10: a momentum strategy whose lookback is 1 outputs target 0 at every
bar of every observation sequence, from any internal window state. -/
theorem C10_momentum_lookback_one_always_flat (size : ℚ) (closes : List ℚ)
    (inputs : List (Bar × PortfolioState)) :
    momTargets ⟨1, size, closes⟩ inputs = List.replicate inputs.length 0 := by
  induction inputs generalizing closes with
  | nil => rfl
  | cons hd rest ih =>
    obtain ⟨b, ps⟩ := hd
    rw [momTargets, mom_next_lookback_one]
    simp only [List.length_cons, List.replicate_succ]
    exact congrArg (List.cons 0) (ih [b.close])

/-!
Concrete end-to-end scenario: 5 bars with opens 100..104, closes equal to
opens, a strategy whose target is 1 on bar 0 and 0 thereafter, zero fee
and slippage, starting cash 1000.
-/

/-- Scenario bar at index `i` with all prices `p` and zero volume. -/
def c2Bar (i : ℕ) (p : ℚ) : Bar :=
  { timestamp := i, «open» := p, high := p, low := p, close := p, volume := 0 }

/-- The five scenario bars. -/
def c2Bars : List Bar :=
  [c2Bar 0 100, c2Bar 1 101, c2Bar 2 102, c2Bar 3 103, c2Bar 4 104]

/-- Scenario strategy: target 1 on the first consulted bar, 0 thereafter
(a bar counter as internal state). -/
def c2Next (n : ℕ) (_bar : Bar) (_state : PortfolioState) : ℕ × ℚ :=
  (n + 1, if n = 0 then 1 else 0)

/-- The scenario run: zero-cost simulated execution, fresh recorder,
starting cash 1000. -/
def c2Run : EngineState ℕ :=
  engineRun c2Next 0 (Portfolio.init 1000)
    (SimulatedExecution.execute { fee_pct := 0, slippage_pct := 0 })
    Recorder.init c2Bars "BTC"

/-- C2: the scenario records exactly 5 states and 2 fills; the first fill
is a buy of 1 executed at bar 1's open of 101 (after which the ledger
holds position 1 and cash 899), the second a sell of 1 executed at bar 2's
open of 102 (after which position is 0, cash 1001, realized PnL 1), and
bars 3 and 4 change nothing. -/
theorem C2_end_to_end_scenario :
    c2Run.recorder.states.length = 5 ∧
    c2Run.recorder.trades.length = 2 ∧
    c2Run.recorder.trades =
      [{ symbol := "BTC", side := Side.BUY, quantity := 1, price := 101,
         fee := 0, timestamp := 1 },
       { symbol := "BTC", side := Side.SELL, quantity := 1, price := 102,
         fee := 0, timestamp := 2 }] ∧
    c2Run.recorder.states.map (fun s => (s.cash, s.position.quantity, s.realized_pnl)) =
      [(1000, 0, 0), (899, 1, 0), (1001, 0, 1), (1001, 0, 1), (1001, 0, 1)] := by
  norm_num [c2Run, engineRun, c2Bars, c2Bar, engineStep, c2Next,
    Portfolio.init, Portfolio.apply_fill, Portfolio.state_at, Portfolio.equity_at,
    Portfolio.unrealized_pnl_at, SimulatedExecution.execute,
    Recorder.init, Recorder.record_state, Recorder.record_fill]

/-!
Structural invariants of the simulation loop.
-/

/-- Specification predicate: the fill is the execution of some order
created at bar `i` (it carries bar `i`'s timestamp) against the
immediately following bar `i+1` of the sequence. -/
def fillFromAdjacentBars (execF : Order → Bar → Fill) (bars : List Bar)
    (f : Fill) : Prop :=
  ∃ i o, i + 1 < bars.length ∧
    o.timestamp = (bars.getD i default).timestamp ∧
    f = execF o (bars.getD (i + 1) default)

lemma fillFromAdjacentBars_append (execF : Order → Bar → Fill) (xs : List Bar)
    (x : Bar) (f : Fill) (h : fillFromAdjacentBars execF xs f) :
    fillFromAdjacentBars execF (xs ++ [x]) f := by
  obtain ⟨i, o, hi, hts, hf⟩ := h
  refine ⟨i, o, ?_, ?_, ?_⟩
  · rw [List.length_append]
    omega
  · rw [List.getD_append _ _ _ _ (by omega)]
    exact hts
  · rw [List.getD_append _ _ _ _ hi]
    exact hf

lemma getD_length_sub_one {α : Type} (l : List α) (d : α) :
    l.getD (l.length - 1) d = l.getLastD d := by
  rw [List.getD_eq_getElem?_getD, List.getLastD_eq_getLast?, List.getLast?_eq_getElem?]

/-- The state list grows by exactly the snapshot of the post-fill
portfolio at the bar's close. -/
lemma engineStep_states {σ : Type} (nextF : σ → Bar → PortfolioState → σ × ℚ)
    (execF : Order → Bar → Fill) (symbol : String) (st : EngineState σ) (bar : Bar) :
    (engineStep nextF execF symbol st bar).recorder.states
      = st.recorder.states ++
        [(match st.pending with
          | some o => st.portfolio.apply_fill (execF o bar)
          | none => st.portfolio).state_at bar.close (some bar.timestamp)] := by
  cases hp : st.pending <;>
    simp [engineStep, hp, Recorder.record_state, Recorder.record_fill]

/-- The trade list grows by the executed pending order, when present, and
by nothing otherwise. -/
lemma engineStep_trades {σ : Type} (nextF : σ → Bar → PortfolioState → σ × ℚ)
    (execF : Order → Bar → Fill) (symbol : String) (st : EngineState σ) (bar : Bar) :
    (engineStep nextF execF symbol st bar).recorder.trades
      = match st.pending with
        | some o => st.recorder.trades ++ [execF o bar]
        | none => st.recorder.trades := by
  cases hp : st.pending <;>
    simp [engineStep, hp, Recorder.record_state, Recorder.record_fill]

/-- Any order pending after a step was created while processing that step's
bar and carries its timestamp. -/
lemma engineStep_pending_timestamp {σ : Type} (nextF : σ → Bar → PortfolioState → σ × ℚ)
    (execF : Order → Bar → Fill) (symbol : String) (st : EngineState σ) (bar : Bar)
    (o : Order) (h : (engineStep nextF execF symbol st bar).pending = some o) :
    o.timestamp = bar.timestamp := by
  cases hp : st.pending <;> rw [engineStep, hp] at h <;>
    · simp only at h
      split at h
      · cases h
        rfl
      · cases h

/-- Loop invariant of the run from a fresh recorder: one state per bar
processed, at most one fill per bar, every fill executed against the bar
immediately after its order's creation bar, and the pending order (when
present) created at the last processed bar. -/
lemma engineRun_inv {σ : Type} (nextF : σ → Bar → PortfolioState → σ × ℚ)
    (execF : Order → Bar → Fill) (symbol : String) (s0 : σ) (p0 : Portfolio)
    (bars : List Bar) :
    (engineRun nextF s0 p0 execF Recorder.init bars symbol).recorder.states.length
        = bars.length ∧
    (engineRun nextF s0 p0 execF Recorder.init bars symbol).recorder.trades.length
        ≤ bars.length ∧
    (∀ f ∈ (engineRun nextF s0 p0 execF Recorder.init bars symbol).recorder.trades,
      fillFromAdjacentBars execF bars f) ∧
    (∀ o, (engineRun nextF s0 p0 execF Recorder.init bars symbol).pending = some o →
      bars ≠ [] ∧ o.timestamp = (bars.getLastD default).timestamp) := by
  induction bars using List.reverseRecOn with
  | nil =>
    refine ⟨rfl, le_refl _, ?_, ?_⟩
    · intro f hf
      exact absurd hf (List.not_mem_nil f)
    · intro o ho
      exact absurd ho (by simp [engineRun])
  | append_singleton xs x ih =>
    obtain ⟨ihs, iht, ihf, ihp⟩ := ih
    have hrun : engineRun nextF s0 p0 execF Recorder.init (xs ++ [x]) symbol
        = engineStep nextF execF symbol
            (engineRun nextF s0 p0 execF Recorder.init xs symbol) x := by
      simp [engineRun, List.foldl_append]
    refine ⟨?_, ?_, ?_, ?_⟩
    · rw [hrun, engineStep_states, List.length_append, ihs, List.length_append]
      rfl
    · rw [hrun, engineStep_trades, List.length_append]
      cases hp : (engineRun nextF s0 p0 execF Recorder.init xs symbol).pending
      · simp only [List.length_cons, List.length_nil]
        omega
      · simp only [List.length_append, List.length_cons, List.length_nil]
        omega
    · rw [hrun, engineStep_trades]
      cases hp : (engineRun nextF s0 p0 execF Recorder.init xs symbol).pending with
      | none =>
        intro f hf
        exact fillFromAdjacentBars_append execF xs x f (ihf f hf)
      | some o =>
        intro f hf
        simp only at hf
        rcases List.mem_append.mp hf with hin | hnew
        · exact fillFromAdjacentBars_append execF xs x f (ihf f hin)
        · obtain ⟨hne, hts⟩ := ihp o hp
          have hlen : xs.length ≠ 0 := fun hz => hne (List.length_eq_zero.mp hz)
          refine ⟨xs.length - 1, o, ?_, ?_, ?_⟩
          · rw [List.length_append]
            simp only [List.length_cons, List.length_nil]
            omega
          · rw [List.getD_append _ _ _ _ (by omega), getD_length_sub_one]
            exact hts
          · have h1 : xs.length - 1 + 1 = xs.length := by omega
            rw [h1, List.getD_append_right _ _ _ _ (le_refl _), Nat.sub_self]
            simpa using List.mem_singleton.mp hnew
    · rw [hrun]
      intro o ho
      refine ⟨by simp, ?_⟩
      rw [List.getLastD_concat]
      exact engineStep_pending_timestamp nextF execF symbol _ x o ho

/-- C1: each loop step appends exactly one state snapshot and at most one
fill; over any bar sequence from a fresh recorder the run records exactly
one state per bar and at most one fill per bar; every recorded fill is the
execution of an order created at some bar `t` against bar `t+1` (so never
against the order's own creation bar, and a pending order with no
following bar never produces a fill); and the empty bar sequence yields an
empty recorder log. -/
theorem C1_loop_invariants :
    (∀ (σ : Type) (nextF : σ → Bar → PortfolioState → σ × ℚ)
        (execF : Order → Bar → Fill) (symbol : String)
        (st : EngineState σ) (bar : Bar),
      (engineStep nextF execF symbol st bar).recorder.states.length
          = st.recorder.states.length + 1 ∧
      (engineStep nextF execF symbol st bar).recorder.trades.length
          ≤ st.recorder.trades.length + 1) ∧
    (∀ (σ : Type) (nextF : σ → Bar → PortfolioState → σ × ℚ)
        (execF : Order → Bar → Fill) (symbol : String) (s0 : σ) (p0 : Portfolio)
        (bars : List Bar),
      (engineRun nextF s0 p0 execF Recorder.init bars symbol).recorder.states.length
          = bars.length ∧
      (engineRun nextF s0 p0 execF Recorder.init bars symbol).recorder.trades.length
          ≤ bars.length ∧
      (∀ f ∈ (engineRun nextF s0 p0 execF Recorder.init bars symbol).recorder.trades,
        fillFromAdjacentBars execF bars f)) ∧
    (∀ (σ : Type) (nextF : σ → Bar → PortfolioState → σ × ℚ)
        (execF : Order → Bar → Fill) (symbol : String) (s0 : σ) (p0 : Portfolio),
      (engineRun nextF s0 p0 execF Recorder.init [] symbol).recorder.states = [] ∧
      (engineRun nextF s0 p0 execF Recorder.init [] symbol).recorder.trades = []) := by
  refine ⟨?_, ?_, ?_⟩
  · intro σ nextF execF symbol st bar
    constructor
    · rw [engineStep_states, List.length_append]
      rfl
    · rw [engineStep_trades]
      cases st.pending
      · simp only
        omega
      · simp only [List.length_append, List.length_cons, List.length_nil]
        omega
  · intro σ nextF execF symbol s0 p0 bars
    obtain ⟨h1, h2, h3, _⟩ := engineRun_inv nextF execF symbol s0 p0 bars
    exact ⟨h1, h2, h3⟩
  · intro σ nextF execF symbol s0 p0
    exact ⟨rfl, rfl⟩

/-- Two-bar scenario for exercising the fill-provenance clause. -/
def c1Bars : List Bar := [c2Bar 0 100, c2Bar 1 101]

/-- C1 witness: on a two-bar run with the scenario strategy, the single
recorded fill (buy of 1 at 101, timestamped bar 1) is the execution of a
bar-0 order against bar 1. -/
theorem C1_loop_invariants_witness :
    fillFromAdjacentBars
      (SimulatedExecution.execute { fee_pct := 0, slippage_pct := 0 }) c1Bars
      { symbol := "BTC", side := Side.BUY, quantity := 1, price := 101,
        fee := 0, timestamp := 1 } := by
  apply (C1_loop_invariants.2.1 ℕ c2Next
    (SimulatedExecution.execute { fee_pct := 0, slippage_pct := 0 }) "BTC" 0
    (Portfolio.init 1000) c1Bars).2.2
  norm_num [engineRun, c1Bars, c2Bar, engineStep, c2Next,
    Portfolio.init, Portfolio.apply_fill, Portfolio.state_at, Portfolio.equity_at,
    Portfolio.unrealized_pnl_at, SimulatedExecution.execute,
    Recorder.init, Recorder.record_state, Recorder.record_fill]

/-!
Drawdown lemmas: behaviour of the max_drawdown fold on rising segments,
bounded segments, and recovery segments.
-/

lemma getLastD_of_ne_nil {α : Type} (l : List α) (h : l ≠ []) (d1 d2 : α) :
    l.getLastD d1 = l.getLastD d2 := by
  cases l with
  | nil => exact absurd rfl h
  | cons a t => rw [List.getLastD_cons, List.getLastD_cons]

/-- A step onto an equity at or above the running peak produces zero
drawdown and only moves the peak. -/
lemma ddStep_no_new_low (p mp ma e : ℚ) (hpe : p ≤ e) (hmp : 0 ≤ mp) :
    ddStep (p, mp, ma) e = (e, mp, ma) := by
  have hpeak : (if e > p then e else p) = e := by
    rcases lt_or_eq_of_le hpe with h | h
    · rw [if_pos h]
    · rw [if_neg (by rw [h]; exact lt_irrefl e)]
      exact h
  simp only [ddStep, hpeak, sub_self, zero_div, ite_self]
  rw [if_neg (not_lt.mpr hmp)]

/-- Folding the drawdown step along a non-decreasing segment that starts at
or above the current peak preserves the recorded maxima and moves the peak
to the segment's last element. -/
lemma ddFold_nondecreasing (c : List ℚ) :
    ∀ (p mp ma : ℚ), List.Chain' (· ≤ ·) c → 0 ≤ mp →
      (∀ hd ∈ c.head?, p ≤ hd) →
      c.foldl ddStep (p, mp, ma) = (c.getLastD p, mp, ma) := by
  induction c with
  | nil =>
    intro p mp ma _ _ _
    rfl
  | cons e rest ih =>
    intro p mp ma hchain hmp hhead
    obtain ⟨hrel, hchain2⟩ := List.chain'_cons'.mp hchain
    rw [List.foldl_cons, ddStep_no_new_low p mp ma e (hhead e rfl) hmp,
      ih e mp ma hchain2 hmp hrel, List.getLastD_cons]

/-- Folding the drawdown step along any segment whose elements stay at or
below the positive peak `P` keeps the peak at `P` and records exactly the
drawdown of the running minimum (threaded as `m`). -/
lemma ddFold_below_peak (r : List ℚ) :
    ∀ (P m : ℚ), 0 < P → m ≤ P → (∀ e ∈ r, e ≤ P) →
      r.foldl ddStep (P, (P - m) / P, P - m)
        = (P, (P - r.foldl min m) / P, P - r.foldl min m) := by
  induction r with
  | nil =>
    intro P m _ _ _
    rfl
  | cons e rest ih =>
    intro P m hP hmP hle
    have heP : e ≤ P := hle e (List.mem_cons_self e rest)
    have hpeak : (if e > P then e else P) = P := if_neg (not_lt.mpr heP)
    have hstep : ddStep (P, (P - m) / P, P - m) e
        = (P, (P - min m e) / P, P - min m e) := by
      simp only [ddStep, hpeak, if_pos hP]
      by_cases hem : e < m
      · rw [if_pos (by rw [gt_iff_lt, div_lt_div_iff_of_pos_right hP]; linarith),
          min_eq_right (le_of_lt hem)]
      · rw [if_neg (by rw [gt_iff_lt, div_lt_div_iff_of_pos_right hP]; push_neg at hem ⊢; linarith),
          min_eq_left (not_lt.mp hem)]
    rw [List.foldl_cons, hstep, List.foldl_cons,
      ih P (min m e) hP (le_trans (min_le_left m e) hmP)
        (fun x hx => hle x (List.mem_cons_of_mem e hx))]

lemma foldl_min_all_ge (r : List ℚ) :
    ∀ m : ℚ, (∀ x ∈ r, m ≤ x) → r.foldl min m = m := by
  induction r with
  | nil =>
    intro m _
    rfl
  | cons e rest ih =>
    intro m h
    rw [List.foldl_cons, min_eq_left (h e (List.mem_cons_self e rest)),
      ih m (fun x hx => h x (List.mem_cons_of_mem e hx))]

lemma foldl_min_attained (r : List ℚ) (T : ℚ) :
    ∀ m : ℚ, T ∈ r → (∀ x ∈ r, T ≤ x) → T ≤ m → r.foldl min m = T := by
  induction r with
  | nil =>
    intro m hT _ _
    exact absurd hT (List.not_mem_nil T)
  | cons e rest ih =>
    intro m hT hge hTm
    rcases List.mem_cons.mp hT with rfl | hT2
    · rw [List.foldl_cons, min_eq_right hTm]
      exact foldl_min_all_ge rest T (fun x hx => hge x (List.mem_cons_of_mem T hx))
    · rw [List.foldl_cons]
      exact ih (min m e) hT2 (fun x hx => hge x (List.mem_cons_of_mem e hx))
        (le_min hTm (hge e (List.mem_cons_self e rest)))

/-- C6: max_drawdown is (0,0) for fewer than 2 states; the drawdown
fraction is 0 for every non-decreasing equity series; and for a series
that rises to a positive peak P, then stays within [T, P] touching the
trough T, then recovers non-decreasingly to at least P, the result is
exactly ((P-T)/P, P-T) — the maximum fraction observed with the absolute
drawdown at that same point, not the drawdown at the series' end. -/
theorem C6_max_drawdown :
    (∀ rec : Recorder, rec.states.length < 2 → max_drawdown rec = (0, 0)) ∧
    (∀ rec : Recorder, List.Chain' (· ≤ ·) (equitySeries rec) →
      (max_drawdown rec).1 = 0) ∧
    (∀ (rec : Recorder) (a r c : List ℚ) (P T : ℚ),
      equitySeries rec = a ++ r ++ c →
      List.Chain' (· ≤ ·) a → a ≠ [] → a.getLastD 0 = P → 0 < P →
      (∀ e ∈ r, T ≤ e ∧ e ≤ P) → T ∈ r →
      List.Chain' (· ≤ ·) c → (∀ e ∈ c, P ≤ e) →
      max_drawdown rec = ((P - T) / P, P - T)) := by
  refine ⟨?_, ?_, ?_⟩
  · intro rec hlen
    unfold max_drawdown
    rw [if_pos (by simpa [equitySeries] using hlen)]
  · intro rec hchain
    unfold max_drawdown
    by_cases hlen : (equitySeries rec).length < 2
    · rw [if_pos hlen]
    · rw [if_neg hlen]
      have hhead : ∀ hd ∈ (equitySeries rec).head?, (equitySeries rec).headD 0 ≤ hd := by
        intro hd hhd
        cases heq : (equitySeries rec).head? with
        | none => rw [heq] at hhd; exact absurd hhd (by simp)
        | some y =>
          rw [heq] at hhd
          simp only [Option.mem_def, Option.some.injEq] at hhd
          rw [List.headD_eq_head?_getD, heq, hhd]
          exact le_refl hd
      rw [ddFold_nondecreasing (equitySeries rec) _ 0 0 hchain (le_refl 0) hhead]
  · intro rec a r c P T heq ha hane hlast hP hr hT hc hcge
    have hrne : r ≠ [] := fun h => by rw [h] at hT; exact absurd hT (List.not_mem_nil T)
    have hTP : T ≤ P := le_trans (hr T hT).1 (hr T hT).2
    unfold max_drawdown
    have hlen : ¬(equitySeries rec).length < 2 := by
      rw [heq]
      simp only [List.length_append]
      cases a with
      | nil => exact absurd rfl hane
      | cons a0 atl =>
        cases r with
        | nil => exact absurd rfl hrne
        | cons r0 rtl => simp; omega
    rw [if_neg hlen, heq]
    have hhead : (a ++ r ++ c).headD 0 = a.headD 0 := by
      cases a with
      | nil => exact absurd rfl hane
      | cons a0 atl => rfl
    have hheadle : ∀ hd ∈ a.head?, a.headD 0 ≤ hd := by
      intro hd hhd
      rw [List.headD_eq_head?_getD, Option.mem_def.mp hhd]
      exact le_refl hd
    rw [hhead, List.foldl_append, List.foldl_append,
      ddFold_nondecreasing a _ 0 0 ha (le_refl 0) hheadle,
      getLastD_of_ne_nil a hane (a.headD 0) 0, hlast]
    rw [show ((P : ℚ), (0 : ℚ), (0 : ℚ)) = (P, (P - P) / P, P - P) by rw [sub_self, zero_div],
      ddFold_below_peak r P P hP (le_refl P) (fun e he => (hr e he).2),
      foldl_min_attained r T P hT (fun x hx => (hr x hx).1) hTP,
      ddFold_nondecreasing c P ((P - T) / P) (P - T) hc
        (div_nonneg (by linarith) (le_of_lt hP))
        (fun hd hhd => hcge hd (List.mem_of_mem_head? hhd))]

/-- Portfolio state with a given equity and all other fields zero (used to
build concrete recorders for the metric claims). -/
def mkEquityState (e : ℚ) : PortfolioState :=
  { cash := 0, position := { quantity := 0, average_price := 0 }, equity := e,
    realized_pnl := 0, unrealized_pnl := 0, timestamp := none }

/-- C6 witness: equity series 100, 50, 100 (peak 100, trough 50, full
recovery) has max drawdown fraction 1/2 with absolute drawdown 50. -/
theorem C6_max_drawdown_witness :
    max_drawdown
      { states := [mkEquityState 100, mkEquityState 50, mkEquityState 100],
        trades := [] } = (1/2, 50) := by
  have h := C6_max_drawdown.2.2
    { states := [mkEquityState 100, mkEquityState 50, mkEquityState 100], trades := [] }
    [100] [50] [100] 100 50 rfl (by simp) (by simp) rfl (by norm_num)
    (by intro e he; rw [List.mem_singleton.mp he]; norm_num)
    (by simp) (by simp)
    (by intro e he; rw [List.mem_singleton.mp he])
  rw [h]
  norm_num

lemma popVariance_nonneg (l : List ℚ) : 0 ≤ popVariance l := by
  unfold popVariance
  apply div_nonneg
  · apply List.sum_nonneg
    intro x hx
    obtain ⟨r, _, rfl⟩ := List.mem_map.mp hx
    positivity
  · exact Nat.cast_nonneg _

/-- C7: sharpe_ratio is `none` (a distinguishable no-value result) exactly
when the recorder has fewer than 3 states, or no valid per-bar returns can
be formed, or the population variance of the returns is zero; otherwise it
is the mean excess return over the population standard deviation, scaled
by the square root of periods_per_year. -/
theorem C7_sharpe_ratio (rec : Recorder) (periods_per_year risk_free_rate : ℚ) :
    (sharpe_ratio rec periods_per_year risk_free_rate = none ↔
      (rec.states.length < 3 ∨
       sharpeReturns (equitySeries rec) periods_per_year risk_free_rate = [] ∨
       popVariance (sharpeReturns (equitySeries rec) periods_per_year risk_free_rate) = 0)) ∧
    (¬rec.states.length < 3 →
     sharpeReturns (equitySeries rec) periods_per_year risk_free_rate ≠ [] →
     popVariance (sharpeReturns (equitySeries rec) periods_per_year risk_free_rate) ≠ 0 →
     sharpe_ratio rec periods_per_year risk_free_rate =
       some ((listMean (sharpeReturns (equitySeries rec) periods_per_year risk_free_rate) : ℝ)
         / Real.sqrt ((popVariance (sharpeReturns (equitySeries rec) periods_per_year risk_free_rate) : ℝ))
         * Real.sqrt ((periods_per_year : ℝ)))) := by
  have hv : 0 ≤ popVariance (sharpeReturns (equitySeries rec) periods_per_year risk_free_rate) :=
    popVariance_nonneg _
  have hexp : sharpe_ratio rec periods_per_year risk_free_rate =
      (if (equitySeries rec).length < 3 then none
       else if sharpeReturns (equitySeries rec) periods_per_year risk_free_rate = [] then none
       else if Real.sqrt ((popVariance (sharpeReturns (equitySeries rec) periods_per_year risk_free_rate) : ℝ)) ≤ 0 then none
       else some ((listMean (sharpeReturns (equitySeries rec) periods_per_year risk_free_rate) : ℝ)
         / Real.sqrt ((popVariance (sharpeReturns (equitySeries rec) periods_per_year risk_free_rate) : ℝ))
         * Real.sqrt ((periods_per_year : ℝ)))) := rfl
  rw [hexp]
  by_cases h1 : rec.states.length < 3
  · rw [if_pos (by simpa [equitySeries] using h1)]
    exact ⟨⟨fun _ => Or.inl h1, fun _ => rfl⟩, fun h1' _ _ => absurd h1 h1'⟩
  · rw [if_neg (by simpa [equitySeries] using h1)]
    by_cases h2 : sharpeReturns (equitySeries rec) periods_per_year risk_free_rate = []
    · rw [if_pos h2]
      exact ⟨⟨fun _ => Or.inr (Or.inl h2), fun _ => rfl⟩, fun _ h2' _ => absurd h2 h2'⟩
    · rw [if_neg h2]
      by_cases h3 : popVariance (sharpeReturns (equitySeries rec) periods_per_year risk_free_rate) = 0
      · rw [if_pos (by rw [h3]; simp)]
        exact ⟨⟨fun _ => Or.inr (Or.inr h3), fun _ => rfl⟩, fun _ _ h3' => absurd h3 h3'⟩
      · have hpos : (0:ℝ) < Real.sqrt ((popVariance (sharpeReturns (equitySeries rec) periods_per_year risk_free_rate) : ℝ)) :=
          Real.sqrt_pos.mpr (by exact_mod_cast lt_of_le_of_ne hv (Ne.symm h3))
        rw [if_neg (not_le.mpr hpos)]
        refine ⟨⟨fun hsome => Option.noConfusion hsome, fun hor => ?_⟩, fun _ _ _ => rfl⟩
        rcases hor with h | h | h
        · exact absurd h h1
        · exact absurd h h2
        · exact absurd h h3

/-- Concrete recorder for the Sharpe witness: equity series 1, 2, 1. -/
def c7Rec : Recorder :=
  { states := [mkEquityState 1, mkEquityState 2, mkEquityState 1], trades := [] }

theorem C7_sharpe_ratio_witness :
    sharpe_ratio c7Rec 4 0 = some ((2 : ℝ) / 3) := by
  have hr : sharpeReturns (equitySeries c7Rec) 4 0 = [1, -(1/2)] := by
    norm_num [sharpeReturns, equitySeries, mkEquityState, c7Rec, List.filterMap_cons]
  have hm : listMean [(1 : ℚ), -(1/2)] = 1/4 := by
    norm_num [listMean]
  have hvv : popVariance [(1 : ℚ), -(1/2)] = 9/16 := by
    norm_num [popVariance, listMean]
  have h := (C7_sharpe_ratio c7Rec 4 0).2
    (by norm_num [c7Rec]) (by rw [hr]; simp) (by rw [hr, hvv]; norm_num)
  rw [h, hr, hm, hvv]
  have s1 : Real.sqrt ((9/16 : ℚ) : ℝ) = 3/4 := by
    rw [show ((9/16 : ℚ) : ℝ) = (3/4 : ℝ)^2 by push_cast; norm_num]
    exact Real.sqrt_sq (by norm_num)
  have s2 : Real.sqrt ((4 : ℚ) : ℝ) = 2 := by
    rw [show ((4 : ℚ) : ℝ) = (2 : ℝ)^2 by push_cast; norm_num]
    exact Real.sqrt_sq (by norm_num)
  rw [s1, s2]
  push_cast
  norm_num
